import Mathlib

/-!
Shallow embedding of the covid19 submission core of brasil.io
(src/covid19/models.py and src/covid19/stats.py), with theorems checking
the natural-language specification's claims against it.

Conventions of the embedding:
* Django model rows become Lean structures; a database table becomes a
  `List` of rows, and queryset combinators become list operations.
* `models.SmallIntegerField` status codes stay the integers 1, 2, 3 of the
  source; `user` is the submitter's username (Django's `user_id` and
  `user.username` identify the same account one-to-one).
* Dates and timestamps are ordinals (`Nat`): the source only compares them
  for equality, `<` and ordering.
* Python exceptions become `Except`: `OnlyOneSpreadsheetException` is the
  `Except.error ()` of `link_to_matching_spreadsheet_peer`, `ValueError`
  the `Except.error` of `import_to_final_dataset`, and `ZeroDivisionError`
  the `none` of `pyDiv`.
* Python `set` iteration order is unspecified; the embedding fixes the
  first-insertion order (`firstKeys`), which matches `dict` key order and
  affects only the order of error messages, never membership.
-/

/-- Status code UPLOADED of StateSpreadsheet (models.py line 70); the spec calls this state Received. -/
def UPLOADED : Nat := 1

/-- Status code CHECK_FAILED of StateSpreadsheet (models.py line 70). -/
def CHECK_FAILED : Nat := 2

/-- Status code DEPLOYED of StateSpreadsheet (models.py line 70). -/
def DEPLOYED : Nat := 3

/-- One entry of the parsed spreadsheet table stored in `data["table"]`:
a dict with keys "city", "place_type", "city_ibge_code", "confirmed" and
"deaths" as the comparison code reads them. `city` is `None` for the
state-total row, and `city_ibge_code` is `None` for the undefined-data row
(models.py line 163 comment). -/
structure TableRow where
  city : Option String
  place_type : String
  city_ibge_code : Option Int
  confirmed : Int
  deaths : Int
deriving DecidableEq, Repr

/-- One StateSpreadsheet row (models.py lines 69-110). The JSON `data` field's
"table", "errors" and "warnings" entries are flattened into fields, exactly
what the `table_data`, `errors` and `warnings` properties expose. -/
structure StateSpreadsheet where
  id : Nat
  created_at : Nat
  user : String
  date : Nat
  state : String
  peer_review : Option Nat
  status : Nat
  table_data : List TableRow
  errors : List String
  warnings : List String
  cancelled : Bool
deriving DecidableEq, Repr

/-- Lower-cased code point of a character (ASCII case fold), modelling the
case folding of Django's `state__iexact` lookup (SQL `LOWER`). -/
def lowerCode (c : Char) : Nat :=
  if 65 ≤ c.toNat && c.toNat ≤ 90 then c.toNat + 32 else c.toNat

/-- Case-insensitive string equality: the `state__iexact` comparison of
`StateSpreadsheetQuerySet.from_state` (models.py line 37). -/
def iexact (a b : String) : Bool :=
  a.data.map lowerCode == b.data.map lowerCode

/-- Embedding of the `active` property (models.py lines 116-118). -/
def active (s : StateSpreadsheet) : Bool := !s.cancelled

/-- Embedding of the `errors` property setter (models.py lines 140-143): it
stores the list in `data["errors"]` and unconditionally sets the status to
CHECK_FAILED, for an empty list as much as for a non-empty one. -/
def setErrors (s : StateSpreadsheet) (data : List String) : StateSpreadsheet :=
  { s with errors := data, status := CHECK_FAILED }

/-- Sort key of `order_by("-created_at")`: most recent creation first. -/
def createdDesc (a b : StateSpreadsheet) : Prop :=
  b.created_at ≤ a.created_at

instance : DecidableRel createdDesc := fun _a _b => Nat.decLe _ _

instance : IsTotal StateSpreadsheet createdDesc :=
  ⟨fun a b => Nat.le_total b.created_at a.created_at⟩

instance : IsTrans StateSpreadsheet createdDesc :=
  ⟨fun _ _ _ hab hbc => le_trans hbc hab⟩

/-- Embedding of the `sibilings` cached property (models.py lines 145-148):
active spreadsheets for the same state (case-insensitive) and date whose
status is UPLOADED or CHECK_FAILED (`pending_review`), excluding rows
matching `pk=self.pk, user_id=self.user_id` — Django's `exclude` with two
keyword arguments excludes only rows matching BOTH conditions, i.e. only the
spreadsheet itself — ordered by creation time descending. The database sort
is modelled by a stable insertion sort, which fixes the unspecified order of
`created_at` ties. -/
def sibilings (db : List StateSpreadsheet) (s : StateSpreadsheet) : List StateSpreadsheet :=
  List.insertionSort createdDesc
    (db.filter (fun t =>
      (!t.cancelled) && iexact t.state s.state && t.date == s.date &&
      (t.status == UPLOADED || t.status == CHECK_FAILED) &&
      !(t.id == s.id && t.user == s.user)))

/-- First-occurrence deduplication: the key set of a Python dict built by a
comprehension, in insertion order. -/
def firstKeys (l : List (Option String)) : List (Option String) :=
  l.foldl (fun acc x => if acc.contains x then acc else acc ++ [x]) []

/-- Keys of the `table_data_by_city` dict (models.py lines 150-152): the city
values of the rows whose place_type is "city". -/
def tableDataByCityKeys (s : StateSpreadsheet) : List (Option String) :=
  firstKeys ((s.table_data.filter (fun r => r.place_type == "city")).map (fun r => r.city))

/-- Embedding of `get_data_from_city` (models.py lines 162-168): the first
table row whose `city_ibge_code` equals the argument, `none` when there is no
such row (the `IndexError` branch). The `int(ibge_code)` coercion is the
identity here because codes are already integers. -/
def get_data_from_city (s : StateSpreadsheet) (ibge_code : Option Int) : Option TableRow :=
  s.table_data.find? (fun r => r.city_ibge_code == ibge_code)

/-- Embedding of `get_total_data` (models.py lines 170-174): the first table
row whose place_type is "state", `none` when there is none. -/
def get_total_data (s : StateSpreadsheet) : Option TableRow :=
  s.table_data.find? (fun r => r.place_type == "state")

/-- The `match` lambda of `compare_to_spreadsheet` (models.py line 177): both
entries present and deaths and confirmed equal. -/
def rowMatch (e1 : TableRow) (e2 : Option TableRow) : Bool :=
  match e2 with
  | some r => e1.deaths == r.deaths && e1.confirmed == r.confirmed
  | none => false

/-- Python `str` of an optional city name, as an f-string renders it. -/
def pyStr : Option String → String
  | some s => s
  | none => "None"

/-- Display name of a row (models.py line 212): `entry["city"] or "Total"` —
"Total" when the city value is None or the empty string (Python falsy). -/
def rowDisplay (r : TableRow) : String :=
  match r.city with
  | some c => if c == "" then "Total" else c
  | none => "Total"

/-- Embedding of `compare_to_spreadsheet` (models.py lines 176-221).
Error list structure follows the source exactly: date/state errors
short-circuit; then the city-set differences of the `table_data_by_city`
keys; then a single length-mismatch error when no set differences; then one
error per own row whose counterpart (state-total row for state rows, row
found by ibge code otherwise) is missing or disagrees on counts, rows whose
city is an own-only extra being skipped. -/
def compare_to_spreadsheet (s other : StateSpreadsheet) : List String :=
  let errs0 :=
    (if s.date == other.date then [] else ["Datas das planilhas são diferentes."]) ++
    (if s.state == other.state then [] else ["Estados das planilhas são diferentes."])
  if errs0.isEmpty then
    let user := s.user
    let other_user := other.user
    let self_cities := tableDataByCityKeys s
    let other_cities := tableDataByCityKeys other
    let extra_self_cities := self_cities.filter (fun c => !(other_cities.contains c))
    let extra_other_cities := other_cities.filter (fun c => !(self_cities.contains c))
    let extraErrs :=
      extra_self_cities.map (fun c =>
        pyStr c ++ " está na planilha (por " ++ user ++
          ") mas não na outra usada para a comparação (por " ++ other_user ++ ").") ++
      extra_other_cities.map (fun c =>
        pyStr c ++ " está na planilha usada para a comparação (por " ++ other_user ++
          ") mas não na importada (por " ++ user ++ ").")
    let self_len := s.table_data.length
    let other_len := other.table_data.length
    let countErrs :=
      if extraErrs.isEmpty && !(self_len == other_len) then
        ["Número de entradas finais divergem. A planilha de comparação (por " ++
          other_user ++ ") possui " ++ toString other_len ++
          " mas a importada (por " ++ user ++ ") possui " ++ toString self_len ++ "."]
      else []
    let rowErrs := s.table_data.filterMap (fun entry =>
      let other_entry :=
        if entry.place_type == "state" then get_total_data other
        else get_data_from_city other entry.city_ibge_code
      if !(extra_self_cities.contains entry.city) && !(rowMatch entry other_entry) then
        some ("Número de casos confirmados ou óbitos diferem para " ++ rowDisplay entry ++ ".")
      else none)
    extraErrs ++ countErrs ++ rowErrs
  else errs0

/-- Embedding of `link_to` (models.py lines 249-253), in the source's
assignment order: `peer_review = other` (stored as the other's id), then the
`errors = []` setter (which sets status CHECK_FAILED), then
`status = UPLOADED`. -/
def link_to (s other : StateSpreadsheet) : StateSpreadsheet :=
  { setErrors { s with peer_review := some other.id } [] with status := UPLOADED }

/-- The for-loop of `link_to_matching_spreadsheet_peer` (models.py lines
234-247), threading the mutated `self`, the running `errors` value, and
returning the loop's result together with the final `self` and the final
states of the sibling list. On a match both sides are linked and the loop
returns `(true, [])` with the remaining candidates untouched; on a mismatch
the errors are stored on both sides (setting CHECK_FAILED on both) and the
loop continues. -/
def linkLoop (s : StateSpreadsheet) (cands : List StateSpreadsheet)
    (errs : List String) : (Bool × List String) × StateSpreadsheet × List StateSpreadsheet :=
  match cands with
  | [] => ((false, errs), s, [])
  | c :: cs =>
    let e := compare_to_spreadsheet s c
    if e.isEmpty then ((true, []), link_to s c, link_to c s :: cs)
    else
      let r := linkLoop (setErrors s e) cs e
      (r.1, r.2.1, setErrors c e :: r.2.2)

/-- Embedding of `link_to_matching_spreadsheet_peer` (models.py lines
223-247): raises OnlyOneSpreadsheetException (`Except.error ()`) when the
sibling candidate set is empty, otherwise runs the comparison loop over the
candidates in order. -/
def link_to_matching_spreadsheet_peer (db : List StateSpreadsheet) (s : StateSpreadsheet) :
    Except Unit ((Bool × List String) × StateSpreadsheet × List StateSpreadsheet) :=
  if (sibilings db s).isEmpty then Except.error ()
  else Except.ok (linkLoop s (sibilings db s) [])

/-- Embedding of the `ready_to_import` property (models.py lines 154-156):
status UPLOADED, not cancelled, and a peer_review link set. -/
def ready_to_import (s : StateSpreadsheet) : Bool :=
  s.status == UPLOADED && !s.cancelled && s.peer_review.isSome

/-- Lookup of a spreadsheet by primary key, as `refresh_from_db` and foreign
keys resolve rows. -/
def findById (db : List StateSpreadsheet) (i : Nat) : Option StateSpreadsheet :=
  db.find? (fun t => t.id == i)

/-- Persisting `status = DEPLOYED` for the row with the given id. -/
def markDeployed (db : List StateSpreadsheet) (i : Nat) : List StateSpreadsheet :=
  db.map (fun t => if t.id == i then { t with status := DEPLOYED } else t)

/-- Embedding of `import_to_final_dataset` (models.py lines 255-266):
reload the row, raise ValueError (`Except.error`) when it is not ready to
import, otherwise persist DEPLOYED on it and then on its peer. The
notification callback is an external sink outside the modelled core. -/
def import_to_final_dataset (db : List StateSpreadsheet) (sid : Nat) :
    Except String (List StateSpreadsheet) :=
  match findById db sid with
  | none => Except.error "StateSpreadsheet matching query does not exist."
  | some s =>
    if ready_to_import s then
      match s.peer_review with
      | some pid => Except.ok (markDeployed (markDeployed db sid) pid)
      | none => Except.ok (markDeployed db sid)
    else Except.error "\x7bself\x7d is not ready to be imported"

/-- Membership test of `filter_older_versions` (models.py lines 27-31): same
user, same state case-insensitively, same date, excluding the spreadsheet's
own id. -/
def isOlderVersion (s t : StateSpreadsheet) : Bool :=
  t.user == s.user && iexact t.state s.state && t.date == s.date && !(t.id == s.id)

/-- Embedding of `cancel_older_versions` (models.py lines 39-40): set
`cancelled = True` on every row `filter_older_versions` selects. -/
def cancel_older_versions (db : List StateSpreadsheet) (s : StateSpreadsheet) : List StateSpreadsheet :=
  db.map (fun t => if isOlderVersion s t then { t with cancelled := true } else t)

/-- Registration of a new submission: the new row is saved and
`cancel_older_versions` runs for it, as the spec's VersioningService
contract (§4.1) composes the in-source queryset operation with row
creation. -/
def register (db : List StateSpreadsheet) (s : StateSpreadsheet) : List StateSpreadsheet :=
  cancel_older_versions db s ++ [s]

/-- Python's true division `a / b`, which raises ZeroDivisionError on a zero
divisor: `none` models the raised exception. Numbers are modelled as exact
rationals; only definedness matters to the claims. -/
def pyDiv (a b : ℚ) : Option ℚ :=
  if b = 0 then none else some (a / b)

/-- Rate fields of `Covid19Stats.country_row` (stats.py lines 84-104), in the
dict literal's evaluation order: `100_000 * (confirmed / population)`, then
`100 * (deaths / confirmed)`, then `100 * (deaths / population)`. The copied
fields (city, date, ...) carry no computation and are not modelled. -/
def country_row_rates (confirmed deaths population : ℚ) : Option (ℚ × ℚ × ℚ) := do
  let confirmed_per_100k ← pyDiv confirmed population
  let death_rate ← pyDiv deaths confirmed
  let deaths_per_100k ← pyDiv deaths population
  pure (100000 * confirmed_per_100k, 100 * death_rate, 100 * deaths_per_100k)

/-- Rate fields of `Covid19Stats.state_row` (stats.py lines 106-131), the
same three formulas computed from the single state case row. -/
def state_row_rates (confirmed deaths population : ℚ) : Option (ℚ × ℚ × ℚ) := do
  let confirmed_per_100k ← pyDiv confirmed population
  let death_rate ← pyDiv deaths confirmed
  let deaths_per_100k ← pyDiv deaths population
  pure (100000 * confirmed_per_100k, 100 * death_rate, 100 * deaths_per_100k)

/-- Hand under the sibling-query exclusion: a submission from the same owner but
with a different primary key, active and pending for the same state and date. -/
def c1S : StateSpreadsheet :=
  ⟨1, 10, "u", 100, "SP", none, UPLOADED, [⟨some "x", "city", some 1, 5, 1⟩], [], [], false⟩

/-- Second submission of the owner of `c1S`, same state and date, different id. -/
def c1T : StateSpreadsheet :=
  ⟨2, 5, "u", 100, "SP", none, UPLOADED, [⟨some "x", "city", some 1, 5, 1⟩], [], [], false⟩

/-- Two-row store holding both submissions of owner "u". -/
def c1Db : List StateSpreadsheet := [c1S, c1T]

/-- Deployed submission on which reconciliation is re-run. -/
def c5S : StateSpreadsheet :=
  ⟨1, 10, "u", 100, "SP", some 2, DEPLOYED, [⟨some "x", "city", some 1, 5, 1⟩], [], [], false⟩

/-- Active pending sibling of `c5S` from another owner with disagreeing counts. -/
def c5T : StateSpreadsheet :=
  ⟨3, 8, "v", 100, "SP", none, UPLOADED, [⟨some "x", "city", some 1, 6, 1⟩], [], [], false⟩

/-- Store holding the deployed submission and its pending sibling. -/
def c5Db : List StateSpreadsheet := [c5S, c5T]

theorem findById_markDeployed (db : List StateSpreadsheet) (i j : Nat) :
    findById (markDeployed db i) j =
      (findById db j).map (fun t => if t.id == i then { t with status := DEPLOYED } else t) := by
  have hpred : (fun t : StateSpreadsheet =>
      (if t.id == i then { t with status := DEPLOYED } else t).id == j) =
      (fun t : StateSpreadsheet => t.id == j) := by
    funext t
    split <;> rfl
  simp only [findById, markDeployed, List.find?_map, Function.comp_def, hpred]

/-- C10: every assignment through the `errors` setter, the empty list
included, sets the status to CHECK_FAILED as a side effect; `link_to`, which
runs the setter with `[]` before assigning UPLOADED, therefore leaves the
submission with empty errors and status UPLOADED (Received); a caller that
clears errors last would be left CHECK_FAILED. -/
theorem errors_setter_sets_check_failed :
    (∀ (s : StateSpreadsheet) (data : List String),
      (setErrors s data).status = CHECK_FAILED ∧ (setErrors s data).errors = data) ∧
    (∀ s : StateSpreadsheet, (setErrors s []).status = CHECK_FAILED ∧ (setErrors s []).errors = []) ∧
    (∀ s other : StateSpreadsheet,
      (link_to s other).status = UPLOADED ∧ (link_to s other).errors = [] ∧
      (link_to s other).peer_review = some other.id) :=
  ⟨fun _ _ => ⟨rfl, rfl⟩, fun _ => ⟨rfl, rfl⟩, fun _ _ => ⟨rfl, rfl, rfl⟩⟩

/-- C1: the sibling candidate query does NOT exclude other submissions from
the same owner: `exclude(pk=self.pk, user_id=self.user_id)` removes only
rows matching both conditions, i.e. the submission itself. At the concrete
store `c1Db`, the same-owner submission `c1T` is returned as a sibling
candidate of `c1S`, against the claim. -/
theorem sibilings_includes_same_owner_submission :
    sibilings c1Db c1S = [c1T] ∧ c1T.user = c1S.user ∧ c1T.id ≠ c1S.id := by decide

/-- C5: Deployed is not terminal under reconciliation: re-running
`link_to_matching_spreadsheet_peer` on the already-deployed `c5S`, with a
pending mismatching sibling present, stores errors on it and moves its
status from DEPLOYED to CHECK_FAILED instead of being a no-op. -/
theorem reconcile_mutates_deployed_submission :
    c5S.status = DEPLOYED ∧
    ((link_to_matching_spreadsheet_peer c5Db c5S).toOption.map
      (fun r => r.2.1.status)) = some CHECK_FAILED ∧
    CHECK_FAILED ≠ DEPLOYED := by decide

/-- C8: the derived-rate computations raise ZeroDivisionError (modelled as
`none`) instead of yielding a defined sentinel: a zero total population makes
`country_row` and `state_row` fault on `confirmed / population`, and a zero
confirmed count makes them fault on `deaths / confirmed`. -/
theorem rate_division_by_zero_raises :
    country_row_rates 10 2 0 = none ∧ country_row_rates 0 0 1000 = none ∧
    state_row_rates 10 2 0 = none := by
  norm_num [country_row_rates, state_row_rates, pyDiv]

/-- C4: `import_to_final_dataset` fails with the invalid-state ValueError and
returns no new store whenever the submission's status is not UPLOADED
(Received), or it is cancelled, or its peer link is unset; when all three
preconditions hold it succeeds and persists DEPLOYED on both the submission
and its peer. -/
theorem import_to_final_dataset_spec (db : List StateSpreadsheet) (sid : Nat)
    (s : StateSpreadsheet) (h : findById db sid = some s) :
    ((s.status ≠ UPLOADED ∨ s.cancelled = true ∨ s.peer_review = none) →
      import_to_final_dataset db sid =
        Except.error "\x7bself\x7d is not ready to be imported") ∧
    (∀ pid p, s.status = UPLOADED → s.cancelled = false → s.peer_review = some pid →
      findById db pid = some p →
      ∃ db2, import_to_final_dataset db sid = Except.ok db2 ∧
        (findById db2 sid).map (fun t => t.status) = some DEPLOYED ∧
        (findById db2 pid).map (fun t => t.status) = some DEPLOYED) := by
  constructor
  · intro hbad
    have hready : ready_to_import s = false := by
      rcases hbad with h1 | h2 | h3
      · simp [ready_to_import, h1]
      · simp [ready_to_import, h2]
      · simp [ready_to_import, h3]
    simp only [import_to_final_dataset, h, hready, Bool.false_eq_true, if_false]
  · intro pid p hst hc hp hfp
    have hready : ready_to_import s = true := by
      simp [ready_to_import, hst, hc, hp]
    have h' : List.find? (fun t => t.id == sid) db = some s := h
    have hfp' : List.find? (fun t => t.id == pid) db = some p := hfp
    have hsid : (s.id == sid) = true := by simpa using List.find?_some h'
    have hpid : (p.id == pid) = true := by simpa using List.find?_some hfp'
    refine ⟨markDeployed (markDeployed db sid) pid, ?_, ?_, ?_⟩
    · simp only [import_to_final_dataset, h, hready, if_true, hp]
    · rw [findById_markDeployed, findById_markDeployed, h]
      simp only [Option.map_some', hsid, if_true]
      split <;> rfl
    · rw [findById_markDeployed, findById_markDeployed, hfp]
      simp only [Option.map_some']
      split <;> simp [hpid]

/-- Concrete ready pair for the C4 witness: submission 1 linked to 2, both
UPLOADED and active. -/
def c4A : StateSpreadsheet :=
  ⟨1, 10, "u", 100, "SP", some 2, UPLOADED, [⟨some "x", "city", some 1, 5, 1⟩], [], [], false⟩

/-- Peer of `c4A`. -/
def c4B : StateSpreadsheet :=
  ⟨2, 9, "v", 100, "SP", some 1, UPLOADED, [⟨some "x", "city", some 1, 5, 1⟩], [], [], false⟩

/-- Unready submission for the C4 witness: no peer link. -/
def c4C : StateSpreadsheet :=
  ⟨3, 8, "w", 100, "SP", none, UPLOADED, [⟨some "x", "city", some 1, 5, 1⟩], [], [], false⟩

/-- Store for the C4 witness. -/
def c4Db : List StateSpreadsheet := [c4A, c4B, c4C]

/-- Witness for C4 at the concrete store `c4Db`: publishing the linked pair
succeeds and deploys both sides, and publishing the peerless submission 3
fails with the invalid-state error. -/
theorem import_to_final_dataset_spec_witness :
    (∃ db2, import_to_final_dataset c4Db 1 = Except.ok db2 ∧
      (findById db2 1).map (fun t => t.status) = some DEPLOYED ∧
      (findById db2 2).map (fun t => t.status) = some DEPLOYED) ∧
    import_to_final_dataset c4Db 3 =
      Except.error "\x7bself\x7d is not ready to be imported" :=
  ⟨(import_to_final_dataset_spec c4Db 1 c4A (by decide)).2 2 c4B rfl rfl rfl (by decide),
   (import_to_final_dataset_spec c4Db 3 c4C (by decide)).1 (Or.inr (Or.inr rfl))⟩

theorem compare_setErrors_left (s c : StateSpreadsheet) (e : List String) :
    compare_to_spreadsheet (setErrors s e) c = compare_to_spreadsheet s c := rfl

theorem setErrors_setErrors (s : StateSpreadsheet) (e1 e2 : List String) :
    setErrors (setErrors s e1) e2 = setErrors s e2 := rfl

theorem link_to_setErrors (s c : StateSpreadsheet) (e : List String) :
    link_to (setErrors s e) c = link_to s c := rfl

theorem link_to_right_setErrors (c s : StateSpreadsheet) (e : List String) :
    link_to c (setErrors s e) = link_to c s := rfl

theorem linkLoop_cons (s c : StateSpreadsheet) (cs : List StateSpreadsheet) (errs0 : List String) :
    linkLoop s (c :: cs) errs0 =
      (if (compare_to_spreadsheet s c).isEmpty then
        ((true, []), link_to s c, link_to c s :: cs)
      else
        ((linkLoop (setErrors s (compare_to_spreadsheet s c)) cs (compare_to_spreadsheet s c)).1,
         (linkLoop (setErrors s (compare_to_spreadsheet s c)) cs (compare_to_spreadsheet s c)).2.1,
         setErrors c (compare_to_spreadsheet s c) ::
           (linkLoop (setErrors s (compare_to_spreadsheet s c)) cs (compare_to_spreadsheet s c)).2.2)) := rfl

theorem linkLoop_all_mismatch :
    ∀ (cands : List StateSpreadsheet) (s : StateSpreadsheet) (hne : cands ≠ [])
      (_hall : ∀ c ∈ cands, compare_to_spreadsheet s c ≠ []) (errs0 : List String),
      linkLoop s cands errs0 =
        ((false, compare_to_spreadsheet s (cands.getLast hne)),
         setErrors s (compare_to_spreadsheet s (cands.getLast hne)),
         cands.map (fun c => setErrors c (compare_to_spreadsheet s c))) := by
  intro cands
  induction cands with
  | nil => intro s hne _ _; exact absurd rfl hne
  | cons c cs ih =>
    intro s hne hall errs0
    have hcne : compare_to_spreadsheet s c ≠ [] := hall c (List.mem_cons_self c cs)
    have hcE : (compare_to_spreadsheet s c).isEmpty = false := by
      cases hempty : (compare_to_spreadsheet s c).isEmpty
      · rfl
      · exact absurd (List.isEmpty_iff.mp hempty) hcne
    cases cs with
    | nil =>
      rw [linkLoop_cons, hcE]
      rfl
    | cons c2 cs' =>
      have hall' : ∀ x ∈ c2 :: cs', compare_to_spreadsheet (setErrors s (compare_to_spreadsheet s c)) x ≠ [] := by
        intro x hx
        rw [compare_setErrors_left]
        exact hall x (List.mem_cons_of_mem c hx)
      have hne' : c2 :: cs' ≠ [] := List.cons_ne_nil c2 cs'
      have hrec := ih (setErrors s (compare_to_spreadsheet s c)) hne' hall' (compare_to_spreadsheet s c)
      rw [linkLoop_cons, hcE]
      simp only [Bool.false_eq_true, if_false, hrec, compare_setErrors_left,
        setErrors_setErrors, List.map_cons, List.getLast_cons hne']

theorem linkLoop_first_match :
    ∀ (pre : List StateSpreadsheet) (s c : StateSpreadsheet) (post : List StateSpreadsheet)
      (_hpre : ∀ p ∈ pre, compare_to_spreadsheet s p ≠ [])
      (_hc : compare_to_spreadsheet s c = []) (errs0 : List String),
      linkLoop s (pre ++ c :: post) errs0 =
        ((true, []), link_to s c,
          pre.map (fun p => setErrors p (compare_to_spreadsheet s p)) ++ link_to c s :: post) := by
  intro pre
  induction pre with
  | nil =>
    intro s c post _ hc errs0
    have hcE : (compare_to_spreadsheet s c).isEmpty = true := by rw [hc]; rfl
    simp only [List.nil_append, linkLoop, hcE, if_true, List.map_nil]
  | cons p ps ih =>
    intro s c post hpre hc errs0
    have hpne : compare_to_spreadsheet s p ≠ [] := hpre p (List.mem_cons_self p ps)
    have hpE : (compare_to_spreadsheet s p).isEmpty = false := by
      cases hempty : (compare_to_spreadsheet s p).isEmpty
      · rfl
      · exact absurd (List.isEmpty_iff.mp hempty) hpne
    have hpre' : ∀ x ∈ ps, compare_to_spreadsheet (setErrors s (compare_to_spreadsheet s p)) x ≠ [] := by
      intro x hx
      rw [compare_setErrors_left]
      exact hpre x (List.mem_cons_of_mem p hx)
    have hc' : compare_to_spreadsheet (setErrors s (compare_to_spreadsheet s p)) c = [] := by
      rw [compare_setErrors_left]; exact hc
    have hrec := ih (setErrors s (compare_to_spreadsheet s p)) c post hpre' hc' (compare_to_spreadsheet s p)
    rw [List.cons_append, linkLoop_cons, hpE]
    simp only [Bool.false_eq_true, if_false, hrec,
      compare_setErrors_left, link_to_setErrors, link_to_right_setErrors,
      List.map_cons, List.cons_append]

theorem sorted_getLast_le {l : List StateSpreadsheet} (hs : List.Sorted createdDesc l)
    (hne : l ≠ []) : ∀ c ∈ l, (l.getLast hne).created_at ≤ c.created_at := by
  intro c hc
  have h2 : List.Pairwise createdDesc (l.dropLast ++ [l.getLast hne]) := by
    rw [List.dropLast_append_getLast hne]; exact hs
  have hc2 : c ∈ l.dropLast ++ [l.getLast hne] := by
    rw [List.dropLast_append_getLast hne]; exact hc
  rcases List.mem_append.mp hc2 with h | h
  · exact (List.pairwise_append.mp h2).2.2 c h _ (List.mem_singleton_self _)
  · rw [List.mem_singleton.mp h]

/-- C2: when every sibling candidate yields a non-empty discrepancy list, the
reconciliation returns `(False, errors)` carrying exactly the discrepancy
list of the last attempted candidate — the oldest by creation time, since
candidates are ordered most recent first — and each failed attempt leaves
both the submission and that candidate with status CHECK_FAILED and that
candidate's discrepancy list as their errors (the submission's errors end up
being those of the last candidate). -/
theorem link_to_matching_peer_all_mismatch (db : List StateSpreadsheet) (s : StateSpreadsheet)
    (hne : sibilings db s ≠ [])
    (hall : ∀ c ∈ sibilings db s, compare_to_spreadsheet s c ≠ []) :
    link_to_matching_spreadsheet_peer db s =
      Except.ok ((false, compare_to_spreadsheet s ((sibilings db s).getLast hne)),
        setErrors s (compare_to_spreadsheet s ((sibilings db s).getLast hne)),
        (sibilings db s).map (fun c => setErrors c (compare_to_spreadsheet s c))) ∧
    (setErrors s (compare_to_spreadsheet s ((sibilings db s).getLast hne))).status = CHECK_FAILED ∧
    (setErrors s (compare_to_spreadsheet s ((sibilings db s).getLast hne))).errors =
      compare_to_spreadsheet s ((sibilings db s).getLast hne) ∧
    (∀ c ∈ sibilings db s,
      (setErrors c (compare_to_spreadsheet s c)).status = CHECK_FAILED ∧
      (setErrors c (compare_to_spreadsheet s c)).errors = compare_to_spreadsheet s c) ∧
    (∀ c ∈ sibilings db s, ((sibilings db s).getLast hne).created_at ≤ c.created_at) := by
  have hE : (sibilings db s).isEmpty = false := by
    cases hempty : (sibilings db s).isEmpty
    · rfl
    · exact absurd (List.isEmpty_iff.mp hempty) hne
  refine ⟨?_, rfl, rfl, fun c _ => ⟨rfl, rfl⟩, ?_⟩
  · simp only [link_to_matching_spreadsheet_peer, hE, Bool.false_eq_true, if_false]
    rw [linkLoop_all_mismatch (sibilings db s) s hne hall []]
  · exact sorted_getLast_le (List.sorted_insertionSort createdDesc _) hne

/-- Submission under reconciliation in the C2 witness store. -/
def c2S : StateSpreadsheet :=
  ⟨1, 10, "u", 100, "SP", none, UPLOADED, [⟨some "x", "city", some 1, 5, 1⟩], [], [], false⟩

/-- Most recent sibling candidate of `c2S`, with disagreeing counts. -/
def c2New : StateSpreadsheet :=
  ⟨2, 8, "v", 100, "SP", none, UPLOADED, [⟨some "x", "city", some 1, 6, 1⟩], [], [], false⟩

/-- Oldest sibling candidate of `c2S`, also with disagreeing counts. -/
def c2Old : StateSpreadsheet :=
  ⟨3, 5, "w", 100, "SP", none, CHECK_FAILED, [⟨some "x", "city", some 1, 7, 2⟩], [], [], false⟩

/-- Store for the C2 witness, listed in scrambled order. -/
def c2Db : List StateSpreadsheet := [c2S, c2Old, c2New]

/-- Witness for C2 at the concrete store `c2Db`: both candidates mismatch, the
outcome carries the oldest candidate's discrepancy list, and both candidates
end CHECK_FAILED with their own discrepancy lists. -/
theorem link_to_matching_peer_all_mismatch_witness :
    link_to_matching_spreadsheet_peer c2Db c2S =
      Except.ok ((false, compare_to_spreadsheet c2S c2Old),
        setErrors c2S (compare_to_spreadsheet c2S c2Old),
        [setErrors c2New (compare_to_spreadsheet c2S c2New),
         setErrors c2Old (compare_to_spreadsheet c2S c2Old)]) ∧
    (setErrors c2S (compare_to_spreadsheet c2S c2Old)).status = CHECK_FAILED :=
  ⟨(link_to_matching_peer_all_mismatch c2Db c2S (by decide) (by decide)).1, rfl⟩

/-- C3: when some candidate in sibling order yields an empty discrepancy
list, reconciliation returns `(True, [])` for the first such candidate, the
peer link is set mutually on both sides, both sides end with status UPLOADED
(Received) and empty error lists — so the peer-link invariant (unset on both
sides or a mutual pair) is preserved for the linked pair. -/
theorem link_to_matching_peer_first_match (db : List StateSpreadsheet) (s : StateSpreadsheet)
    (pre : List StateSpreadsheet) (c : StateSpreadsheet) (post : List StateSpreadsheet)
    (hsplit : sibilings db s = pre ++ c :: post)
    (hpre : ∀ p ∈ pre, compare_to_spreadsheet s p ≠ [])
    (hc : compare_to_spreadsheet s c = []) :
    link_to_matching_spreadsheet_peer db s =
      Except.ok ((true, []), link_to s c,
        pre.map (fun p => setErrors p (compare_to_spreadsheet s p)) ++ link_to c s :: post) ∧
    (link_to s c).peer_review = some c.id ∧ (link_to c s).peer_review = some s.id ∧
    (link_to s c).status = UPLOADED ∧ (link_to c s).status = UPLOADED ∧
    (link_to s c).errors = [] ∧ (link_to c s).errors = [] := by
  have hE : (sibilings db s).isEmpty = false := by
    rw [hsplit]; cases pre <;> rfl
  refine ⟨?_, rfl, rfl, rfl, rfl, rfl, rfl⟩
  simp only [link_to_matching_spreadsheet_peer, hE, Bool.false_eq_true, if_false]
  rw [hsplit, linkLoop_first_match pre s c post hpre hc []]

/-- Submission under reconciliation in the C3 witness store. -/
def c3S : StateSpreadsheet :=
  ⟨1, 10, "u", 100, "SP", none, UPLOADED, [⟨some "x", "city", some 1, 5, 1⟩], [], [], false⟩

/-- Most recent sibling candidate of `c3S`, with disagreeing counts. -/
def c3New : StateSpreadsheet :=
  ⟨2, 8, "v", 100, "SP", none, UPLOADED, [⟨some "x", "city", some 1, 6, 1⟩], [], [], false⟩

/-- Older sibling candidate of `c3S` with identical data: the first match. -/
def c3Old : StateSpreadsheet :=
  ⟨3, 5, "w", 100, "SP", none, UPLOADED, [⟨some "x", "city", some 1, 5, 1⟩], [], [], false⟩

/-- Store for the C3 witness. -/
def c3Db : List StateSpreadsheet := [c3S, c3New, c3Old]

/-- Witness for C3 at the concrete store `c3Db`: the newer candidate
mismatches, the older one matches, both sides of the match are linked
mutually with status UPLOADED and empty errors. -/
theorem link_to_matching_peer_first_match_witness :
    link_to_matching_spreadsheet_peer c3Db c3S =
      Except.ok ((true, []), link_to c3S c3Old,
        [setErrors c3New (compare_to_spreadsheet c3S c3New), link_to c3Old c3S]) ∧
    (link_to c3S c3Old).peer_review = some c3Old.id ∧
    (link_to c3Old c3S).peer_review = some c3S.id ∧
    (link_to c3S c3Old).status = UPLOADED ∧ (link_to c3Old c3S).status = UPLOADED := by
  have h := link_to_matching_peer_first_match c3Db c3S [c3New] c3Old []
    (by decide) (by decide) (by decide)
  exact ⟨h.1, h.2.1, h.2.2.1, h.2.2.2.1, h.2.2.2.2.1⟩

/-- Key predicate of the versioning invariant: same owner, same state
case-insensitively, same date — the filter of `filter_older_versions`
without the id exclusion. -/
def keyMatch (u st : String) (d : Nat) (t : StateSpreadsheet) : Bool :=
  t.user == u && iexact t.state st && t.date == d

theorem cancel_older_versions_mem_id (db : List StateSpreadsheet) (s : StateSpreadsheet) :
    ∀ t ∈ cancel_older_versions db s, ∃ t0 ∈ db, t.id = t0.id := by
  intro t ht
  rcases List.mem_map.mp ht with ⟨t0, ht0, rfl⟩
  refine ⟨t0, ht0, ?_⟩
  by_cases h : isOlderVersion s t0 = true <;> simp [h]

theorem isOlderVersion_of_keyMatch {u st : String} {d : Nat} {s t : StateSpreadsheet}
    (hks : keyMatch u st d s = true) (hkt : keyMatch u st d t = true)
    (hid : t.id ≠ s.id) : isOlderVersion s t = true := by
  simp only [keyMatch, Bool.and_eq_true, beq_iff_eq, iexact] at hks hkt
  obtain ⟨⟨hsu, hsst⟩, hsd⟩ := hks
  obtain ⟨⟨htu, htst⟩, htd⟩ := hkt
  simp only [isOlderVersion, Bool.and_eq_true, beq_iff_eq, iexact, Bool.not_eq_true']
  exact ⟨⟨⟨htu.trans hsu.symm, htst.trans hsst.symm⟩, htd.trans hsd.symm⟩, by simpa using hid⟩

theorem keyMatch_of_isOlderVersion {u st : String} {d : Nat} {s t : StateSpreadsheet}
    (hks : keyMatch u st d s = true) (hold : isOlderVersion s t = true) :
    keyMatch u st d t = true := by
  simp only [keyMatch, Bool.and_eq_true, beq_iff_eq, iexact] at hks ⊢
  simp only [isOlderVersion, Bool.and_eq_true, beq_iff_eq, iexact] at hold
  obtain ⟨⟨hsu, hsst⟩, hsd⟩ := hks
  obtain ⟨⟨⟨htu, htst⟩, htd⟩, _⟩ := hold
  exact ⟨⟨htu.trans hsu, htst.trans hsst⟩, htd.trans hsd⟩

theorem register_keyActive (db : List StateSpreadsheet) (s : StateSpreadsheet)
    {u st : String} {d : Nat}
    (hkey : keyMatch u st d s = true) (hact : s.cancelled = false)
    (hfresh : ∀ t ∈ db, t.id ≠ s.id) :
    (register db s).filter (fun t => keyMatch u st d t && !t.cancelled) = [s] := by
  rw [register, List.filter_append]
  have h1 : (cancel_older_versions db s).filter (fun t => keyMatch u st d t && !t.cancelled) = [] := by
    rw [List.filter_eq_nil_iff]
    intro t ht
    rcases List.mem_map.mp ht with ⟨t0, ht0, rfl⟩
    by_cases hk : keyMatch u st d t0 = true
    · have hold : isOlderVersion s t0 = true :=
        isOlderVersion_of_keyMatch hkey hk (hfresh t0 ht0)
      simp [hold]
    · have hold : isOlderVersion s t0 = false := by
        cases h : isOlderVersion s t0
        · rfl
        · exact absurd (keyMatch_of_isOlderVersion hkey h) hk
      have hk0 : keyMatch u st d t0 = false := by
        cases h : keyMatch u st d t0
        · rfl
        · exact absurd h hk
      simp only [hold, Bool.false_eq_true, if_false]
      have : keyMatch u st d ({ t0 with cancelled := t0.cancelled } : StateSpreadsheet) = keyMatch u st d t0 := rfl
      simp [keyMatch] at hk0 ⊢
      intro h1 h2 h3
      exact absurd (by simp [keyMatch, h1, h2, h3]) hk
  rw [h1, List.nil_append]
  simp [hkey, hact]

theorem register_frame (db : List StateSpreadsheet) (s : StateSpreadsheet)
    {u st : String} {d : Nat} (hkey : keyMatch u st d s = true) :
    ∀ t ∈ db, keyMatch u st d t = false → t ∈ register db s := by
  intro t ht hk
  have hold : isOlderVersion s t = false := by
    cases h : isOlderVersion s t
    · rfl
    · exact absurd (keyMatch_of_isOlderVersion hkey h) (by simp [hk])
  apply List.mem_append_left
  have : (if isOlderVersion s t = true then ({ t with cancelled := true } : StateSpreadsheet) else t) = t := by
    simp [hold]
  exact this ▸ List.mem_map_of_mem _ ht

/-- C6: after a non-empty sequence of sequential registrations for one
(owner, region, date) key — each new submission created active with a fresh
id — exactly one submission for the key is active, and it is the last
(most recently created) one: the filter of active key rows over the final
store is the singleton of the last registered submission. Submissions of a
different owner, region, or date are never cancelled: any non-key row of the
initial store is still present, unchanged, in the final store. -/
theorem register_unique_active_per_key (u st : String) (d : Nat) :
    ∀ (subs db : List StateSpreadsheet) (hne : subs ≠ []),
      (∀ x ∈ subs, keyMatch u st d x = true ∧ x.cancelled = false) →
      (∀ x ∈ subs, ∀ t ∈ db, t.id ≠ x.id) →
      List.Pairwise (fun a b => a.id ≠ b.id) subs →
      ((subs.foldl register db).filter (fun t => keyMatch u st d t && !t.cancelled) =
        [subs.getLast hne]) ∧
      (∀ t ∈ db, keyMatch u st d t = false → t ∈ subs.foldl register db) := by
  intro subs
  induction subs with
  | nil => intro db hne _ _ _; exact absurd rfl hne
  | cons x xs ih =>
    intro db hne hkeys hfresh hdistinct
    cases xs with
    | nil =>
      constructor
      · exact register_keyActive db x (hkeys x (by simp)).1 (hkeys x (by simp)).2
          (fun t ht => hfresh x (by simp) t ht)
      · intro t ht hk
        exact register_frame db x (hkeys x (by simp)).1 t ht hk
    | cons y ys =>
      have hxk := hkeys x (List.mem_cons_self x _)
      have hne' : y :: ys ≠ [] := List.cons_ne_nil y ys
      have hkeys' : ∀ z ∈ y :: ys, keyMatch u st d z = true ∧ z.cancelled = false :=
        fun z hz => hkeys z (List.mem_cons_of_mem x hz)
      have hfresh' : ∀ z ∈ y :: ys, ∀ t ∈ register db x, t.id ≠ z.id := by
        intro z hz t ht
        rcases List.mem_append.mp ht with h | h
        · rcases cancel_older_versions_mem_id db x t h with ⟨t0, ht0, hid⟩
          rw [hid]
          exact hfresh z (List.mem_cons_of_mem x hz) t0 ht0
        · rw [List.mem_singleton.mp h]
          exact (List.pairwise_cons.mp hdistinct).1 z hz
      have hdis' := (List.pairwise_cons.mp hdistinct).2
      have hmain := ih (register db x) hne' hkeys' hfresh' hdis'
      constructor
      · have hfold : (x :: y :: ys).foldl register db = (y :: ys).foldl register (register db x) := rfl
        rw [hfold, hmain.1]
        rfl
      · intro t ht hk
        exact hmain.2 t (register_frame db x hxk.1 t ht hk) hk

/-- First registration of owner "u" for (SP, date 100) in the C6 witness. -/
def c6A : StateSpreadsheet := ⟨10, 1, "u", 100, "SP", none, UPLOADED, [], [], [], false⟩

/-- Second registration of owner "u" for the same key, state written in lower
case to exercise the case-insensitive key comparison. -/
def c6B : StateSpreadsheet := ⟨11, 2, "u", 100, "sp", none, UPLOADED, [], [], [], false⟩

/-- Unrelated active submission of another owner and region. -/
def c6Other : StateSpreadsheet := ⟨5, 0, "v", 100, "RJ", none, UPLOADED, [], [], [], false⟩

/-- Witness for C6: after registering `c6A` then `c6B` for the key
("u", "SP", 100) over a store holding only the unrelated `c6Other`, the
active key rows are exactly `[c6B]` and `c6Other` is untouched. -/
theorem register_unique_active_per_key_witness :
    (([c6A, c6B].foldl register [c6Other]).filter
        (fun t => keyMatch "u" "SP" 100 t && !t.cancelled) = [c6B]) ∧
    c6Other ∈ [c6A, c6B].foldl register [c6Other] := by
  have h := register_unique_active_per_key "u" "SP" 100 [c6A, c6B] [c6Other]
    (by decide) (by decide) (by decide) (by decide)
  exact ⟨h.1, h.2 c6Other (by decide) (by decide)⟩


/-- Character comparison by Unicode code point, as Python compares strings. -/
def chLt (a b : Char) : Bool := a.toNat < b.toNat

/-- Lexicographic strict comparison of character lists by code point. -/
def clLt : List Char → List Char → Bool
  | [], [] => false
  | [], _ :: _ => true
  | _ :: _, [] => false
  | a :: as, b :: bs => if chLt a b then true else if a = b then clLt as bs else false

/-- Python's `<` on strings: lexicographic by code point. -/
def pyStrLt (s t : String) : Bool := clLt s.data t.data

theorem chLt_or_eq_or_gt (a b : Char) : chLt a b = true ∨ a = b ∨ chLt b a = true := by
  simp only [chLt, decide_eq_true_eq]
  rcases Nat.lt_trichotomy a.toNat b.toNat with h | h | h
  · exact Or.inl h
  · refine Or.inr (Or.inl ?_)
    rw [← Char.ofNat_toNat a, ← Char.ofNat_toNat b, h]
  · exact Or.inr (Or.inr h)

theorem chLt_asymm {a b : Char} (h : chLt a b = true) : chLt b a = false := by
  simp only [chLt, decide_eq_true_eq, decide_eq_false_iff_not] at h ⊢
  omega

theorem chLt_irrefl (a : Char) : chLt a a = false := by
  simp [chLt]

theorem clLt_trichotomy : ∀ as bs, clLt as bs = true ∨ as = bs ∨ clLt bs as = true := by
  intro as
  induction as with
  | nil =>
    intro bs
    cases bs with
    | nil => exact Or.inr (Or.inl rfl)
    | cons b bs => exact Or.inl rfl
  | cons a as ih =>
    intro bs
    cases bs with
    | nil => exact Or.inr (Or.inr rfl)
    | cons b bs =>
      rcases chLt_or_eq_or_gt a b with h | h | h
      · exact Or.inl (by simp [clLt, h])
      · subst h
        rcases ih bs with h2 | h2 | h2
        · exact Or.inl (by simp [clLt, chLt_irrefl, h2])
        · exact Or.inr (Or.inl (by rw [h2]))
        · exact Or.inr (Or.inr (by simp [clLt, chLt_irrefl, h2]))
      · refine Or.inr (Or.inr ?_)
        have hne : b ≠ a := by
          intro hEq
          rw [hEq] at h
          simp [chLt_irrefl] at h
        simp [clLt, h]

theorem clLt_asymm : ∀ as bs, clLt as bs = true → clLt bs as = false := by
  intro as
  induction as with
  | nil =>
    intro bs h
    cases bs with
    | nil => simp [clLt] at h ⊢
    | cons b bs => simp [clLt]
  | cons a as ih =>
    intro bs h
    cases bs with
    | nil => simp [clLt] at h
    | cons b bs =>
      simp only [clLt] at h ⊢
      by_cases h1 : chLt a b = true
      · have h2 : chLt b a = false := chLt_asymm h1
        have h3 : b ≠ a := by
          intro hEq
          rw [hEq] at h1
          simp [chLt_irrefl] at h1
        simp [h2, h3]
      · simp only [h1, Bool.false_eq_true, if_false] at h
        by_cases h4 : a = b
        · subst h4
          simp only [if_pos rfl] at h
          simp [chLt_irrefl, ih bs h]
        · simp [h4] at h

theorem clLt_conn : ∀ as bs, clLt as bs = false → clLt bs as = false → as = bs := by
  intro as bs h1 h2
  rcases clLt_trichotomy as bs with h | h | h
  · rw [h] at h1; cases h1
  · exact h
  · rw [h] at h2; cases h2

theorem clLt_trans : ∀ as bs cs, clLt as bs = true → clLt bs cs = true → clLt as cs = true := by
  intro as
  induction as with
  | nil =>
    intro bs cs hab hbc
    cases bs with
    | nil => simp [clLt] at hab
    | cons b bs =>
      cases cs with
      | nil => simp [clLt] at hbc
      | cons c cs => simp [clLt]
  | cons a as ih =>
    intro bs cs hab hbc
    cases bs with
    | nil => simp [clLt] at hab
    | cons b bs =>
      cases cs with
      | nil => simp [clLt] at hbc
      | cons c cs =>
        simp only [clLt] at hab hbc ⊢
        by_cases h1 : chLt a b = true
        · by_cases h2 : chLt b c = true
          · have : chLt a c = true := by
              simp only [chLt, decide_eq_true_eq] at h1 h2 ⊢
              omega
            simp [this]
          · simp only [h2, Bool.false_eq_true, if_false] at hbc
            by_cases h3 : b = c
            · subst h3
              simp [h1]
            · simp [h3] at hbc
        · simp only [h1, Bool.false_eq_true, if_false] at hab
          by_cases h3 : a = b
          · subst h3
            simp only [if_pos rfl] at hab
            by_cases h2 : chLt a c = true
            · simp [h2]
            · simp only [h2, Bool.false_eq_true, if_false] at hbc ⊢
              by_cases h4 : a = c
              · subst h4
                simp only [if_pos rfl] at hbc ⊢
                exact ih bs cs hab hbc
              · simp [h4] at hbc ⊢
          · simp [h3] at hab

theorem pyStrLt_irrefl (s : String) : pyStrLt s s = false := by
  cases h : pyStrLt s s
  · rfl
  · have h2 : clLt s.data s.data = true := h
    have h3 := clLt_asymm _ _ h2
    rw [h2] at h3
    cases h3

theorem pyStrLt_conn {s t : String} (h1 : pyStrLt s t = false) (h2 : pyStrLt t s = false) :
    s = t := by
  obtain ⟨sd⟩ := s
  obtain ⟨td⟩ := t
  have : sd = td := clLt_conn sd td h1 h2
  rw [this]

theorem pyStrLt_trans {s t u : String} (h1 : pyStrLt s t = true) (h2 : pyStrLt t u = true) :
    pyStrLt s u = true := clLt_trans _ _ _ h1 h2

theorem pyStrLt_trichotomy (s t : String) : pyStrLt s t = true ∨ s = t ∨ pyStrLt t s = true := by
  rcases clLt_trichotomy s.data t.data with h | h | h
  · exact Or.inl h
  · refine Or.inr (Or.inl ?_)
    obtain ⟨sd⟩ := s
    obtain ⟨td⟩ := t
    exact congrArg String.mk (by simpa using h)
  · exact Or.inr (Or.inr h)

/-- Python's `<` on triples of strings (the sort key tuples of
`_get_latest_cases`): lexicographic, comparing components by `==` / `<`. -/
def keyLt (x y : String × String × String) : Bool :=
  if pyStrLt x.1 y.1 then true
  else if x.1 = y.1 then
    if pyStrLt x.2.1 y.2.1 then true
    else if x.2.1 = y.2.1 then pyStrLt x.2.2 y.2.2
    else false
  else false

theorem keyLt_irrefl (x : String × String × String) : keyLt x x = false := by
  simp [keyLt, pyStrLt_irrefl]

theorem keyLt_trichotomy (x y : String × String × String) :
    keyLt x y = true ∨ x = y ∨ keyLt y x = true := by
  obtain ⟨x1, x2, x3⟩ := x
  obtain ⟨y1, y2, y3⟩ := y
  rcases pyStrLt_trichotomy x1 y1 with h1 | h1 | h1
  · exact Or.inl (by simp [keyLt, h1])
  · subst h1
    rcases pyStrLt_trichotomy x2 y2 with h2 | h2 | h2
    · exact Or.inl (by simp [keyLt, pyStrLt_irrefl, h2])
    · subst h2
      rcases pyStrLt_trichotomy x3 y3 with h3 | h3 | h3
      · exact Or.inl (by simp [keyLt, pyStrLt_irrefl, h3])
      · subst h3
        exact Or.inr (Or.inl rfl)
      · exact Or.inr (Or.inr (by simp [keyLt, pyStrLt_irrefl, h3]))
    · refine Or.inr (Or.inr ?_)
      have hne : y2 ≠ x2 := by
        intro hEq
        rw [hEq] at h2
        rw [pyStrLt_irrefl] at h2
        cases h2
      simp [keyLt, pyStrLt_irrefl, h2, hne]
  · refine Or.inr (Or.inr ?_)
    have hne : y1 ≠ x1 := by
      intro hEq
      rw [hEq] at h1
      rw [pyStrLt_irrefl] at h1
      cases h1
    simp [keyLt, h1, hne]

theorem keyLt_trans {x y z : String × String × String}
    (h1 : keyLt x y = true) (h2 : keyLt y z = true) : keyLt x z = true := by
  obtain ⟨x1, x2, x3⟩ := x
  obtain ⟨y1, y2, y3⟩ := y
  obtain ⟨z1, z2, z3⟩ := z
  simp only [keyLt] at h1 h2 ⊢
  by_cases a1 : pyStrLt x1 y1 = true
  · by_cases b1 : pyStrLt y1 z1 = true
    · simp [pyStrLt_trans a1 b1]
    · simp only [b1, Bool.false_eq_true, if_false] at h2
      by_cases be1 : y1 = z1
      · subst be1
        simp [a1]
      · simp [be1] at h2
  · simp only [a1, Bool.false_eq_true, if_false] at h1
    by_cases ae1 : x1 = y1
    · subst ae1
      simp only [if_pos rfl] at h1
      by_cases b1 : pyStrLt x1 z1 = true
      · simp [b1]
      · simp only [b1, Bool.false_eq_true, if_false] at h2 ⊢
        by_cases be1 : x1 = z1
        · subst be1
          simp only [if_pos rfl] at h2 ⊢
          by_cases a2 : pyStrLt x2 y2 = true
          · by_cases b2 : pyStrLt y2 z2 = true
            · simp [pyStrLt_trans a2 b2]
            · simp only [b2, Bool.false_eq_true, if_false] at h2
              by_cases be2 : y2 = z2
              · subst be2
                simp [a2]
              · simp [be2] at h2
          · simp only [a2, Bool.false_eq_true, if_false] at h1
            by_cases ae2 : x2 = y2
            · subst ae2
              simp only [if_pos rfl] at h1
              by_cases b2 : pyStrLt x2 z2 = true
              · simp [b2]
              · simp only [b2, Bool.false_eq_true, if_false] at h2 ⊢
                by_cases be2 : x2 = z2
                · subst be2
                  simp only [if_pos rfl] at h2 ⊢
                  exact pyStrLt_trans h1 h2
                · simp [be2] at h2
            · simp [ae2] at h1
        · simp [be1] at h2
    · simp [ae1] at h1

theorem keyLt_asymm {x y : String × String × String} (h : keyLt x y = true) :
    keyLt y x = false := by
  cases h2 : keyLt y x
  · rfl
  · have := keyLt_trans h h2
    rw [keyLt_irrefl] at this
    cases this

theorem keyLt_conn {x y : String × String × String}
    (h1 : keyLt x y = false) (h2 : keyLt y x = false) : x = y := by
  rcases keyLt_trichotomy x y with h | h | h
  · rw [h] at h1; cases h1
  · exact h
  · rw [h] at h2; cases h2

/-- One canonical `caso` record as `_get_latest_cases` reads it (stats.py
lines 199-215): region, city name, place type, report date and the
`order_for_place` sequence number. -/
structure Caso where
  state : String
  city : String
  place_type : String
  date : Nat
  order_for_place : Nat
deriving DecidableEq, Repr

/-- The `place_key_func` lambda of `_get_latest_cases` (stats.py line 202):
`(row.place_type, row.state, row.city)`. -/
def placeKey (r : Caso) : String × String × String :=
  (r.place_type, r.state, r.city)

/-- Sort relation of `sorted(cases, key=place_key_func)`: ascending by the
place-key tuple under Python's lexicographic tuple-of-strings order; `a` may
come before `b` iff the key of `b` is not smaller. -/
def keyLe (a b : Caso) : Prop := keyLt (placeKey b) (placeKey a) = false

instance : DecidableRel keyLe :=
  fun a b => inferInstanceAs (Decidable (keyLt (placeKey b) (placeKey a) = false))

instance : IsTotal Caso keyLe := by
  refine ⟨fun a b => ?_⟩
  cases h : keyLt (placeKey b) (placeKey a)
  · exact Or.inl h
  · exact Or.inr (keyLt_asymm h)

instance : IsTrans Caso keyLe := by
  refine ⟨fun a b c hab hbc => ?_⟩
  cases h : keyLt (placeKey c) (placeKey a)
  · exact h
  · exfalso
    rcases keyLt_trichotomy (placeKey c) (placeKey b) with h2 | h2 | h2
    · rw [hbc] at h2
      cases h2
    · rw [h2] at h
      rw [hab] at h
      cases h
    · have h3 := keyLt_trans h2 h
      rw [hab] at h3
      cases h3

theorem keyLe_conn {a b : Caso} (h1 : keyLe a b) (h2 : keyLe b a) :
    placeKey a = placeKey b := keyLt_conn h2 h1

/-- Consecutive grouping by equal place keys: the embedding of
`itertools.groupby(cases, key=place_key_func)` over the sorted list — maximal
runs of rows sharing a place key. -/
def groupRuns : List Caso → List (List Caso)
  | [] => []
  | [x] => [[x]]
  | x :: y :: xs =>
    match groupRuns (y :: xs) with
    | g :: gs => if placeKey x = placeKey y then (x :: g) :: gs else [x] :: g :: gs
    | [] => [[x]]

theorem groupRuns_shape : ∀ (x : Caso) (xs : List Caso),
    ∃ g gs, groupRuns (x :: xs) = (x :: g) :: gs := by
  intro x xs
  induction xs generalizing x with
  | nil => exact ⟨[], [], rfl⟩
  | cons y ys ih =>
    rcases ih y with ⟨g, gs, hsh⟩
    by_cases h : placeKey x = placeKey y
    · exact ⟨y :: g, gs, by simp [groupRuns, hsh, h]⟩
    · exact ⟨[], (y :: g) :: gs, by simp [groupRuns, hsh, h]⟩

theorem groupRuns_join : ∀ l : List Caso, (groupRuns l).flatten = l := by
  intro l
  induction l with
  | nil => rfl
  | cons x xs ih =>
    cases xs with
    | nil => rfl
    | cons y ys =>
      rcases groupRuns_shape y ys with ⟨g, gs, hsh⟩
      rw [hsh] at ih
      by_cases h : placeKey x = placeKey y
      · simp only [groupRuns, hsh, h, if_pos rfl]
        simpa using ih
      · simp only [groupRuns, hsh, h, if_neg h]
        simpa using ih

theorem groupRuns_ne_nil : ∀ (l : List Caso), ∀ g ∈ groupRuns l, g ≠ [] := by
  intro l
  induction l with
  | nil => intro g hg; cases hg
  | cons x xs ih =>
    cases xs with
    | nil =>
      intro g hg
      rcases List.mem_singleton.mp hg with rfl
      exact List.cons_ne_nil _ _
    | cons y ys =>
      rcases groupRuns_shape y ys with ⟨g0, gs, hsh⟩
      intro g hg
      by_cases h : placeKey x = placeKey y
      · simp only [groupRuns, hsh, if_pos h] at hg
        rcases List.mem_cons.mp hg with rfl | hmem
        · exact List.cons_ne_nil _ _
        · exact ih g (by rw [hsh]; exact List.mem_cons_of_mem _ hmem)
      · simp only [groupRuns, hsh, if_neg h] at hg
        rcases List.mem_cons.mp hg with rfl | hmem
        · exact List.cons_ne_nil _ _
        · exact ih g (by rw [hsh]; exact hmem)

theorem groupRuns_const : ∀ (l : List Caso), ∀ g ∈ groupRuns l, ∀ a ∈ g, ∀ b ∈ g,
    placeKey a = placeKey b := by
  intro l
  induction l with
  | nil => intro g hg; cases hg
  | cons x xs ih =>
    cases xs with
    | nil =>
      intro g hg a ha b hb
      rcases List.mem_singleton.mp hg with rfl
      rcases List.mem_singleton.mp ha with rfl
      rcases List.mem_singleton.mp hb with rfl
      rfl
    | cons y ys =>
      rcases groupRuns_shape y ys with ⟨g0, gs, hsh⟩
      intro g hg a ha b hb
      by_cases h : placeKey x = placeKey y
      · simp only [groupRuns, hsh, if_pos h] at hg
        rcases List.mem_cons.mp hg with rfl | hmem
        · -- g = x :: y :: g0; every element of y :: g0 has the key of y
          have hfirst : ∀ c ∈ (x :: y :: g0 : List Caso), placeKey c = placeKey y := by
            intro c hc
            rcases List.mem_cons.mp hc with rfl | hc2
            · exact h
            · exact ih (y :: g0) (by rw [hsh]; exact List.mem_cons_self _ _) c hc2 y
                (List.mem_cons_self _ _)
          rw [hfirst a ha, hfirst b hb]
        · exact ih g (by rw [hsh]; exact List.mem_cons_of_mem _ hmem) a ha b hb
      · simp only [groupRuns, hsh, if_neg h] at hg
        rcases List.mem_cons.mp hg with rfl | hmem
        · rcases List.mem_singleton.mp ha with rfl
          rcases List.mem_singleton.mp hb with rfl
          rfl
        · exact ih g (by rw [hsh]; exact hmem) a ha b hb

theorem groupRuns_pairwise_ne : ∀ (l : List Caso), List.Pairwise keyLe l →
    List.Pairwise (fun g1 g2 => ∀ a ∈ g1, ∀ b ∈ g2, placeKey a ≠ placeKey b) (groupRuns l) := by
  intro l
  induction l with
  | nil => intro _; exact List.Pairwise.nil
  | cons x xs ih =>
    intro hs
    obtain ⟨hx, hs'⟩ := List.pairwise_cons.mp hs
    cases xs with
    | nil => simp [groupRuns]
    | cons y ys =>
      rcases groupRuns_shape y ys with ⟨g0, gs, hsh⟩
      have hih := ih hs'
      rw [hsh] at hih
      obtain ⟨hfirst, hgs⟩ := List.pairwise_cons.mp hih
      by_cases h : placeKey x = placeKey y
      · simp only [groupRuns, hsh, if_pos h]
        refine List.pairwise_cons.mpr ⟨?_, hgs⟩
        intro g2 hg2 a ha b hb
        rcases List.mem_cons.mp ha with rfl | ha2
        · rw [h]
          exact hfirst g2 hg2 y (List.mem_cons_self _ _) b hb
        · exact hfirst g2 hg2 a ha2 b hb
      · simp only [groupRuns, hsh, if_neg h]
        refine List.pairwise_cons.mpr ⟨?_, List.pairwise_cons.mpr ⟨hfirst, hgs⟩⟩
        intro g2 hg2 a ha b hb
        rcases List.mem_singleton.mp ha with rfl
        rcases List.mem_cons.mp hg2 with rfl | hg2'
        · have hby : placeKey b = placeKey y :=
            groupRuns_const (y :: ys) (y :: g0)
              (by rw [hsh]; exact List.mem_cons_self _ _) b hb y (List.mem_cons_self _ _)
          rw [hby]
          exact h
        · have hbmem : b ∈ y :: ys := by
            rw [← groupRuns_join (y :: ys)]
            exact List.mem_flatten.mpr
              ⟨g2, by rw [hsh]; exact List.mem_cons_of_mem _ hg2', hb⟩
          rcases List.mem_cons.mp hbmem with rfl | hbys
          · exact h
          · intro hEq
            have hxy : keyLe a y := hx y (List.mem_cons_self _ _)
            have hyb : keyLe y b := (List.pairwise_cons.mp hs').1 b hbys
            have h1 : keyLt (placeKey a) (placeKey y) = false := by
              rw [hEq]
              exact hyb
            exact h (keyLt_conn h1 hxy)

/-- The per-group selection `sorted(entries, key=order_func, reverse=True)[0]`
(stats.py lines 208-209): the first element attaining the maximal
`order_for_place` of the group (Python's descending sort is stable, so the
head of the sorted group is the earliest maximal element); `none` only for an
empty group, which `groupby` never produces. -/
def pickMax : List Caso → Option Caso
  | [] => none
  | x :: xs =>
    some (xs.foldl (fun best r => if best.order_for_place < r.order_for_place then r else best) x)

theorem foldMax_spec : ∀ (xs : List Caso) (x : Caso),
    (List.foldl (fun best r => if best.order_for_place < r.order_for_place then r else best) x xs)
      ∈ x :: xs ∧
    ∀ a ∈ x :: xs, a.order_for_place ≤
      (List.foldl (fun best r => if best.order_for_place < r.order_for_place then r else best) x xs).order_for_place := by
  intro xs
  induction xs with
  | nil =>
    intro x
    refine ⟨List.mem_singleton_self x, ?_⟩
    intro a ha
    rw [List.mem_singleton.mp ha]
    exact le_refl _
  | cons r xs ih =>
    intro x
    obtain ⟨hmem, hle⟩ := ih (if x.order_for_place < r.order_for_place then r else x)
    constructor
    · simp only [List.foldl_cons]
      rcases List.mem_cons.mp hmem with hEq | hmem2
      · rw [hEq]
        split
        · exact List.mem_cons_of_mem _ (List.mem_cons_self _ _)
        · exact List.mem_cons_self _ _
      · exact List.mem_cons_of_mem _ (List.mem_cons_of_mem _ hmem2)
    · intro a ha
      simp only [List.foldl_cons]
      rcases List.mem_cons.mp ha with rfl | ha2
      · refine le_trans ?_ (hle _ (List.mem_cons_self _ _))
        split
        · omega
        · exact le_refl _
      rcases List.mem_cons.mp ha2 with rfl | ha3
      · refine le_trans ?_ (hle _ (List.mem_cons_self _ _))
        split
        · exact le_refl _
        · omega
      · exact hle a (List.mem_cons_of_mem _ ha3)

theorem pickMax_mem {g : List Caso} {m : Caso} (h : pickMax g = some m) : m ∈ g := by
  cases g with
  | nil => cases h
  | cons x xs =>
    have := (foldMax_spec xs x).1
    simp only [pickMax, Option.some_inj] at h
    rw [h] at this
    exact this

theorem pickMax_le {g : List Caso} {m : Caso} (h : pickMax g = some m) :
    ∀ a ∈ g, a.order_for_place ≤ m.order_for_place := by
  cases g with
  | nil => cases h
  | cons x xs =>
    have := (foldMax_spec xs x).2
    simp only [pickMax, Option.some_inj] at h
    rw [h] at this
    exact this

theorem pickMax_isSome {g : List Caso} (h : g ≠ []) : ∃ m, pickMax g = some m := by
  cases g with
  | nil => exact absurd rfl h
  | cons x xs => exact ⟨_, rfl⟩

/-- The queryset filter of `_get_latest_cases` (stats.py line 200):
`state=state, date__lt=date, place_type=place_type`. -/
def caso_filter (db : List Caso) (state : String) (date : Nat) (place_type : String) : List Caso :=
  db.filter (fun r => r.state == state && decide (r.date < date) && r.place_type == place_type)

/-- Embedding of `_get_latest_cases` (stats.py lines 199-215) before the
state-level unwrapping: filter the canonical records, sort by the place-key
tuple, group consecutive equal keys, and keep the maximal-`order_for_place`
record of each group. The unordered queryset iteration is modelled by the
store's list order. -/
def get_latest_cases (db : List Caso) (state : String) (date : Nat) (place_type : String) : List Caso :=
  (groupRuns (List.insertionSort keyLe (caso_filter db state date place_type))).filterMap pickMax

/-- Embedding of `most_recent_city_entries_for_state` (stats.py lines 193-194). -/
def most_recent_city_entries_for_state (db : List Caso) (state : String) (date : Nat) : List Caso :=
  get_latest_cases db state date "city"

/-- Embedding of `most_recent_state_entry` (stats.py lines 196-197) with the
`result = result[0]` unwrapping of the asserted singleton. -/
def most_recent_state_entry (db : List Caso) (state : String) (date : Nat) : Option Caso :=
  (get_latest_cases db state date "state").head?

theorem grouped_max_spec (l : List Caso) :
    (∀ r ∈ (groupRuns (List.insertionSort keyLe l)).filterMap pickMax,
       r ∈ l ∧ ∀ s ∈ l, placeKey s = placeKey r → s.order_for_place ≤ r.order_for_place) ∧
    (∀ s ∈ l, ∃ r ∈ (groupRuns (List.insertionSort keyLe l)).filterMap pickMax,
       placeKey r = placeKey s) ∧
    (∀ r1 ∈ (groupRuns (List.insertionSort keyLe l)).filterMap pickMax,
     ∀ r2 ∈ (groupRuns (List.insertionSort keyLe l)).filterMap pickMax,
       placeKey r1 = placeKey r2 → r1 = r2) := by
  have hperm := List.perm_insertionSort keyLe l
  have hsorted := List.sorted_insertionSort keyLe l
  have hpw := groupRuns_pairwise_ne _ hsorted
  have hsymm : Symmetric (fun g1 g2 : List Caso => ∀ a ∈ g1, ∀ b ∈ g2, placeKey a ≠ placeKey b) :=
    fun g1 g2 h a ha b hb => Ne.symm (h b hb a ha)
  have hsame : ∀ g1 ∈ groupRuns (List.insertionSort keyLe l),
      ∀ g2 ∈ groupRuns (List.insertionSort keyLe l),
      ∀ a ∈ g1, ∀ b ∈ g2, placeKey a = placeKey b → g1 = g2 := by
    intro g1 hg1 g2 hg2 a ha b hb hEq
    by_contra hne
    exact (List.Pairwise.forall hsymm hpw hg1 hg2 hne) a ha b hb hEq
  refine ⟨?_, ?_, ?_⟩
  · intro r hr
    rcases List.mem_filterMap.mp hr with ⟨g, hg, hpick⟩
    have hrg := pickMax_mem hpick
    have hrsrt : r ∈ List.insertionSort keyLe l := by
      rw [← groupRuns_join (List.insertionSort keyLe l)]
      exact List.mem_flatten.mpr ⟨g, hg, hrg⟩
    refine ⟨hperm.mem_iff.mp hrsrt, ?_⟩
    intro s hs hkey
    have hssrt : s ∈ List.insertionSort keyLe l := hperm.mem_iff.mpr hs
    rw [← groupRuns_join (List.insertionSort keyLe l)] at hssrt
    rcases List.mem_flatten.mp hssrt with ⟨g2, hg2, hsg2⟩
    have hgg : g2 = g := hsame g2 hg2 g hg s hsg2 r hrg hkey
    rw [hgg] at hsg2
    exact pickMax_le hpick s hsg2
  · intro s hs
    have hssrt : s ∈ List.insertionSort keyLe l := hperm.mem_iff.mpr hs
    rw [← groupRuns_join (List.insertionSort keyLe l)] at hssrt
    rcases List.mem_flatten.mp hssrt with ⟨g, hg, hsg⟩
    rcases pickMax_isSome (groupRuns_ne_nil _ g hg) with ⟨m, hm⟩
    refine ⟨m, List.mem_filterMap.mpr ⟨g, hg, hm⟩, ?_⟩
    exact groupRuns_const _ g hg m (pickMax_mem hm) s hsg
  · intro r1 h1 r2 h2 hEq
    rcases List.mem_filterMap.mp h1 with ⟨g1, hg1, hp1⟩
    rcases List.mem_filterMap.mp h2 with ⟨g2, hg2, hp2⟩
    have hgg : g1 = g2 := hsame g1 hg1 g2 hg2 r1 (pickMax_mem hp1) r2 (pickMax_mem hp2) hEq
    rw [hgg] at hp1
    rw [hp1] at hp2
    exact Option.some_inj.mp hp2

/-- Canonical records for the C7 example: city "a" of SP has records on dates
7 and 9 plus a same-day correction on date 9 (order_for_place 1 then 2); an
out-of-range record (date 12) and another region's record are present too. -/
def c7Db : List Caso :=
  [⟨"SP", "a", "city", 7, 0⟩, ⟨"SP", "a", "city", 9, 1⟩, ⟨"SP", "a", "city", 9, 2⟩,
   ⟨"RJ", "b", "city", 9, 5⟩, ⟨"SP", "c", "city", 12, 3⟩]

/-- C7: for every region, as-of date and place type, the latest-cases
resolution returns entries for exactly the distinct places among the
canonical records of that region and place type dated strictly before the
as-of date — one entry per place — and for each place the returned entry is
a record of that place's group with the maximum `order_for_place`, not the
maximum date: in the concrete store `c7Db`, city "a" has records on dates 7
and 9 plus a same-day correction on date 9 (order_for_place 1 and 2), and
exactly the order_for_place = 2 record is returned for as-of date 10. -/
theorem get_latest_cases_spec (db : List Caso) (state : String) (date : Nat) (place_type : String) :
    (∀ r ∈ get_latest_cases db state date place_type,
       r ∈ caso_filter db state date place_type ∧
       ∀ s ∈ caso_filter db state date place_type,
         placeKey s = placeKey r → s.order_for_place ≤ r.order_for_place) ∧
    (∀ s ∈ caso_filter db state date place_type,
       ∃ r ∈ get_latest_cases db state date place_type, placeKey r = placeKey s) ∧
    (∀ r1 ∈ get_latest_cases db state date place_type,
     ∀ r2 ∈ get_latest_cases db state date place_type,
       placeKey r1 = placeKey r2 → r1 = r2) ∧
    get_latest_cases c7Db "SP" 10 "city" = [⟨"SP", "a", "city", 9, 2⟩] :=
  ⟨(grouped_max_spec _).1, (grouped_max_spec _).2.1, (grouped_max_spec _).2.2, by decide⟩


/-- Submission whose table repeats the city name "x" under two distinct
place identifiers. -/
def c9A : StateSpreadsheet :=
  ⟨1, 10, "u", 100, "SP", none, UPLOADED,
    [⟨some "x", "city", some 1, 1, 1⟩, ⟨some "x", "city", some 2, 2, 2⟩], [], [], false⟩

/-- Submission whose table repeats the identifier 1 under the city name
"x" twice. -/
def c9B : StateSpreadsheet :=
  ⟨2, 9, "v", 100, "SP", none, UPLOADED,
    [⟨some "x", "city", some 1, 1, 1⟩, ⟨some "x", "city", some 1, 1, 1⟩], [], [], false⟩

/-- C9 counterexample: comparison outcome classification is not symmetric on
arbitrary tables — comparing `c9B` against `c9A` yields no discrepancies
(every row of `c9B` finds an agreeing row by identifier, the city-name sets
and row counts agree), while comparing `c9A` against `c9B` reports a
discrepancy for the identifier-2 row absent from `c9B`. -/
theorem compare_symmetry_counterexample :
    compare_to_spreadsheet c9B c9A = [] ∧ compare_to_spreadsheet c9A c9B ≠ [] := by decide

theorem foldKeys_mem (l : List (Option String)) :
    ∀ (acc : List (Option String)) (x : Option String),
      (x ∈ l.foldl (fun acc x => if acc.contains x then acc else acc ++ [x]) acc) ↔
        (x ∈ acc ∨ x ∈ l) := by
  induction l with
  | nil => intro acc x; simp
  | cons y ys ih =>
    intro acc x
    rw [List.foldl_cons, ih]
    constructor
    · rintro (hx | hx)
      · by_cases hc : acc.contains y
        · rw [if_pos hc] at hx
          exact Or.inl hx
        · rw [if_neg hc] at hx
          rcases List.mem_append.mp hx with h | h
          · exact Or.inl h
          · exact Or.inr (by rw [List.mem_singleton.mp h]; exact List.mem_cons_self _ _)
      · exact Or.inr (List.mem_cons_of_mem _ hx)
    · rintro (hx | hx)
      · left
        by_cases hc : acc.contains y
        · rw [if_pos hc]; exact hx
        · rw [if_neg hc]; exact List.mem_append_left _ hx
      · rcases List.mem_cons.mp hx with rfl | h
        · left
          by_cases hc : acc.contains x
          · rw [if_pos hc]
            exact List.mem_of_elem_eq_true hc
          · rw [if_neg hc]
            exact List.mem_append_right _ (List.mem_singleton_self _)
        · exact Or.inr h

theorem mem_firstKeys {l : List (Option String)} {x : Option String} :
    x ∈ firstKeys l ↔ x ∈ l := by
  rw [firstKeys, foldKeys_mem]
  simp

theorem mem_cityKeys {s : StateSpreadsheet} {c : Option String} :
    c ∈ tableDataByCityKeys s ↔ ∃ r ∈ s.table_data, r.place_type = "city" ∧ r.city = c := by
  rw [tableDataByCityKeys, mem_firstKeys]
  constructor
  · intro h
    rcases List.mem_map.mp h with ⟨r, hr, rfl⟩
    exact ⟨r, (List.mem_filter.mp hr).1, by simpa using (List.mem_filter.mp hr).2, rfl⟩
  · rintro ⟨r, hr, htype, rfl⟩
    exact List.mem_map.mpr ⟨r, List.mem_filter.mpr ⟨hr, by simpa using htype⟩, rfl⟩

theorem find?_eq_of_unique {p : TableRow → Bool} {l : List TableRow} {a : TableRow}
    (ha : a ∈ l) (hpa : p a = true) (huniq : ∀ b ∈ l, p b = true → b = a) :
    l.find? p = some a := by
  induction l with
  | nil => cases ha
  | cons x xs ih =>
    by_cases hx : p x = true
    · rw [List.find?_cons_of_pos _ hx, huniq x (List.mem_cons_self _ _) hx]
    · rw [List.find?_cons_of_neg _ hx]
      have hax : a ∈ xs := by
        rcases List.mem_cons.mp ha with rfl | h
        · exact absurd hpa hx
        · exact h
      exact ih hax (fun b hb hpb => huniq b (List.mem_cons_of_mem _ hb) hpb)

theorem rowMatch_comm {a b : TableRow} (h : rowMatch a (some b) = true) :
    rowMatch b (some a) = true := by
  simp only [rowMatch, Bool.and_eq_true, beq_iff_eq] at h ⊢
  exact ⟨h.1.symm, h.2.symm⟩

theorem eq_of_mem_of_length_le_one {α : Type} {l : List α} (hlen : l.length ≤ 1)
    {a b : α} (ha : a ∈ l) (hb : b ∈ l) : a = b := by
  cases l with
  | nil => cases ha
  | cons x xs =>
    cases xs with
    | nil =>
      rw [List.mem_singleton.mp ha, List.mem_singleton.mp hb]
    | cons y ys => simp at hlen

theorem length_filter_city_state {l : List TableRow}
    (h : ∀ r ∈ l, r.place_type = "city" ∨ r.place_type = "state") :
    (l.filter (fun r => r.place_type == "city")).length +
      (l.filter (fun r => r.place_type == "state")).length = l.length := by
  induction l with
  | nil => rfl
  | cons x xs ih =>
    have hx := h x (List.mem_cons_self _ _)
    have ih2 := ih (fun r hr => h r (List.mem_cons_of_mem _ hr))
    have hcc : (("city" : String) == "city") = true := by decide
    have hss : (("state" : String) == "state") = true := by decide
    have hcs : (("city" : String) == "state") = false := by decide
    have hsc : (("state" : String) == "city") = false := by decide
    rcases hx with hx | hx
    · simp only [List.filter_cons, hx, hcc, hcs, if_true, Bool.false_eq_true, if_false,
        List.length_cons]
      omega
    · simp only [List.filter_cons, hx, hss, hsc, if_true, Bool.false_eq_true, if_false,
        List.length_cons]
      omega

/-- The `extra_self_cities` set of `compare_to_spreadsheet`: city keys of the
first sheet missing from the second. -/
def extraSelfCities (s other : StateSpreadsheet) : List (Option String) :=
  (tableDataByCityKeys s).filter (fun c => !((tableDataByCityKeys other).contains c))

/-- One iteration of the per-row loop of `compare_to_spreadsheet`. -/
def rowError (s other : StateSpreadsheet) (entry : TableRow) : Option String :=
  let other_entry :=
    if entry.place_type == "state" then get_total_data other
    else get_data_from_city other entry.city_ibge_code
  if !((extraSelfCities s other).contains entry.city) && !(rowMatch entry other_entry) then
    some ("Número de casos confirmados ou óbitos diferem para " ++ rowDisplay entry ++ ".")
  else none

theorem compare_unfold (s other : StateSpreadsheet) :
    compare_to_spreadsheet s other =
      if ((if s.date == other.date then [] else ["Datas das planilhas são diferentes."]) ++
          (if s.state == other.state then [] else ["Estados das planilhas são diferentes."])).isEmpty
      then
        ((extraSelfCities s other).map (fun c =>
          pyStr c ++ " está na planilha (por " ++ s.user ++
            ") mas não na outra usada para a comparação (por " ++ other.user ++ ").") ++
         (extraSelfCities other s).map (fun c =>
          pyStr c ++ " está na planilha usada para a comparação (por " ++ other.user ++
            ") mas não na importada (por " ++ s.user ++ ").")) ++
        (if ((extraSelfCities s other).map (fun c =>
              pyStr c ++ " está na planilha (por " ++ s.user ++
                ") mas não na outra usada para a comparação (por " ++ other.user ++ ").") ++
             (extraSelfCities other s).map (fun c =>
              pyStr c ++ " está na planilha usada para a comparação (por " ++ other.user ++
                ") mas não na importada (por " ++ s.user ++ ").")).isEmpty &&
            !(s.table_data.length == other.table_data.length) then
          ["Número de entradas finais divergem. A planilha de comparação (por " ++
            other.user ++ ") possui " ++ toString other.table_data.length ++
            " mas a importada (por " ++ s.user ++ ") possui " ++
            toString s.table_data.length ++ "."]
        else []) ++
        s.table_data.filterMap (rowError s other)
      else
        (if s.date == other.date then [] else ["Datas das planilhas são diferentes."]) ++
        (if s.state == other.state then [] else ["Estados das planilhas são diferentes."]) := rfl

theorem extraSelfCities_eq_nil_iff {s other : StateSpreadsheet} :
    extraSelfCities s other = [] ↔
      ∀ c ∈ tableDataByCityKeys s, c ∈ tableDataByCityKeys other := by
  rw [extraSelfCities, List.filter_eq_nil_iff]
  constructor
  · intro h c hc
    have h2 := h c hc
    have hcon : (tableDataByCityKeys other).contains c = true := by
      cases hcon : (tableDataByCityKeys other).contains c
      · rw [hcon] at h2
        simp at h2
      · rfl
    exact List.mem_of_elem_eq_true hcon
  · intro h c hc
    have h2 := List.elem_eq_true_of_mem (h c hc)
    simp only [List.contains, h2, Bool.not_true, Bool.false_eq_true, not_false_eq_true]

theorem compare_nil_parts {A B : StateSpreadsheet} (h : compare_to_spreadsheet A B = []) :
    A.date = B.date ∧ A.state = B.state ∧
    extraSelfCities A B = [] ∧ extraSelfCities B A = [] ∧
    A.table_data.length = B.table_data.length ∧
    (∀ e ∈ A.table_data,
      rowMatch e (if e.place_type == "state" then get_total_data B
                  else get_data_from_city B e.city_ibge_code) = true) := by
  rw [compare_unfold] at h
  by_cases hd : (A.date == B.date) = true
  case neg => exfalso; simp [hd] at h
  by_cases hst : (A.state == B.state) = true
  case neg => exfalso; simp [hd, hst] at h
  rw [if_pos (by simp [hd, hst])] at h
  rcases List.append_eq_nil.mp h with ⟨h12, h3⟩
  rcases List.append_eq_nil.mp h12 with ⟨h1, h2⟩
  rcases List.append_eq_nil.mp h1 with ⟨hma, hmb⟩
  have hexA : extraSelfCities A B = [] := List.map_eq_nil_iff.mp hma
  have hexB : extraSelfCities B A = [] := List.map_eq_nil_iff.mp hmb
  have hlen : A.table_data.length = B.table_data.length := by
    by_cases hl : (A.table_data.length == B.table_data.length) = true
    · exact beq_iff_eq.mp hl
    · exfalso
      simp [hexA, hexB, hl] at h2
  refine ⟨beq_iff_eq.mp hd, beq_iff_eq.mp hst, hexA, hexB, hlen, ?_⟩
  intro e he
  have h4 := List.filterMap_eq_nil_iff.mp h3 e he
  by_cases hm : rowMatch e (if e.place_type == "state" then get_total_data B
      else get_data_from_city B e.city_ibge_code) = true
  · exact hm
  · exfalso
    simp [rowError, hexA, hm] at h4
    simp only [beq_iff_eq] at hm
    exact hm h4

theorem compare_nil_build {A B : StateSpreadsheet}
    (hd : A.date = B.date) (hst : A.state = B.state)
    (hexA : extraSelfCities A B = []) (hexB : extraSelfCities B A = [])
    (hlen : A.table_data.length = B.table_data.length)
    (hrows : ∀ e ∈ A.table_data,
      rowMatch e (if e.place_type == "state" then get_total_data B
                  else get_data_from_city B e.city_ibge_code) = true) :
    compare_to_spreadsheet A B = [] := by
  rw [compare_unfold]
  rw [if_pos (by simp [hd, hst])]
  have hr : A.table_data.filterMap (rowError A B) = [] := by
    rw [List.filterMap_eq_nil_iff]
    intro e he
    have hrow := hrows e he
    simp only [rowError]
    rw [hexA, hrow]
    rfl
  rw [hexA, hexB, hr]
  simp [hlen]

/-- Well-formedness of a submission table, as the excluded validator
guarantees it: every row is a city row or the state-total row, at most one
state row, place identifiers pairwise distinct, and city names pairwise
distinct among city rows. -/
def wellFormedTable (s : StateSpreadsheet) : Prop :=
  (∀ r ∈ s.table_data, r.place_type = "city" ∨ r.place_type = "state") ∧
  (s.table_data.filter (fun r => r.place_type == "state")).length ≤ 1 ∧
  List.Pairwise (fun r1 r2 => r1.city_ibge_code ≠ r2.city_ibge_code) s.table_data ∧
  List.Pairwise (fun r1 r2 => r1.city ≠ r2.city)
    (s.table_data.filter (fun r => r.place_type == "city"))

/-- Cross-sheet identifier agreement: the same city name carries the same
place identifier in both tables (both draw codes from the official
city registry). -/
def codesAgree (A B : StateSpreadsheet) : Prop :=
  ∀ a ∈ A.table_data, ∀ b ∈ B.table_data,
    a.place_type = "city" → b.place_type = "city" → a.city = b.city →
      a.city_ibge_code = b.city_ibge_code

theorem codesAgree_symm {A B : StateSpreadsheet} (h : codesAgree A B) : codesAgree B A :=
  fun b hb a ha htb hta hname => (h a ha b hb hta htb hname.symm).symm

theorem codes_unique {s : StateSpreadsheet} (hw : wellFormedTable s) {a b : TableRow}
    (ha : a ∈ s.table_data) (hb : b ∈ s.table_data)
    (hcode : a.city_ibge_code = b.city_ibge_code) : a = b := by
  by_contra hne
  exact (List.Pairwise.forall (fun _ _ h => h.symm) hw.2.2.1 ha hb hne) hcode

theorem state_count_eq {A B : StateSpreadsheet}
    (hwA : wellFormedTable A) (hwB : wellFormedTable B)
    (hexA : extraSelfCities A B = []) (hexB : extraSelfCities B A = [])
    (hlen : A.table_data.length = B.table_data.length) :
    (A.table_data.filter (fun r => r.place_type == "state")).length =
      (B.table_data.filter (fun r => r.place_type == "state")).length := by
  have hnA : ((A.table_data.filter (fun r => r.place_type == "city")).map
      (fun r => r.city)).Nodup := List.pairwise_map.mpr hwA.2.2.2
  have hnB : ((B.table_data.filter (fun r => r.place_type == "city")).map
      (fun r => r.city)).Nodup := List.pairwise_map.mpr hwB.2.2.2
  have hsub1 : ((A.table_data.filter (fun r => r.place_type == "city")).map (fun r => r.city)) ⊆
      ((B.table_data.filter (fun r => r.place_type == "city")).map (fun r => r.city)) := by
    intro c hc
    have hkA : c ∈ tableDataByCityKeys A := by
      rw [tableDataByCityKeys]
      exact mem_firstKeys.mpr hc
    have hkB := (extraSelfCities_eq_nil_iff.mp hexA) c hkA
    rw [tableDataByCityKeys] at hkB
    exact mem_firstKeys.mp hkB
  have hsub2 : ((B.table_data.filter (fun r => r.place_type == "city")).map (fun r => r.city)) ⊆
      ((A.table_data.filter (fun r => r.place_type == "city")).map (fun r => r.city)) := by
    intro c hc
    have hkB : c ∈ tableDataByCityKeys B := by
      rw [tableDataByCityKeys]
      exact mem_firstKeys.mpr hc
    have hkA := (extraSelfCities_eq_nil_iff.mp hexB) c hkB
    rw [tableDataByCityKeys] at hkA
    exact mem_firstKeys.mp hkA
  have hle1 := (hnA.subperm hsub1).length_le
  have hle2 := (hnB.subperm hsub2).length_le
  have hmapA := List.length_map (A.table_data.filter (fun r => r.place_type == "city"))
    (fun r => r.city)
  have hmapB := List.length_map (B.table_data.filter (fun r => r.place_type == "city"))
    (fun r => r.city)
  have htotA := length_filter_city_state hwA.1
  have htotB := length_filter_city_state hwB.1
  omega

theorem compare_nil_symm {A B : StateSpreadsheet}
    (hwA : wellFormedTable A) (hwB : wellFormedTable B) (hagree : codesAgree A B)
    (h : compare_to_spreadsheet A B = []) : compare_to_spreadsheet B A = [] := by
  obtain ⟨hd, hst, hexA, hexB, hlen, hrows⟩ := compare_nil_parts h
  apply compare_nil_build hd.symm hst.symm hexB hexA hlen.symm
  intro e he
  rcases hwB.1 e he with htype | htype
  · rw [htype, if_neg (by decide)]
    have hkeyB : e.city ∈ tableDataByCityKeys B := mem_cityKeys.mpr ⟨e, he, htype, rfl⟩
    have hkeyA : e.city ∈ tableDataByCityKeys A := (extraSelfCities_eq_nil_iff.mp hexB) _ hkeyB
    rcases mem_cityKeys.mp hkeyA with ⟨a, haA, hatype, haname⟩
    have hacode : a.city_ibge_code = e.city_ibge_code := hagree a haA e he hatype htype haname
    have hrowa := hrows a haA
    rw [hatype, if_neg (by decide)] at hrowa
    cases hfind : get_data_from_city B a.city_ibge_code with
    | none =>
      rw [hfind] at hrowa
      exact absurd hrowa (by simp [rowMatch])
    | some b' =>
      rw [hfind] at hrowa
      have hb'B : b' ∈ B.table_data := List.mem_of_find?_eq_some hfind
      have hb'code : b'.city_ibge_code = a.city_ibge_code := by
        simpa using List.find?_some hfind
      have hb'e : b' = e := codes_unique hwB hb'B he (by rw [hb'code, hacode])
      have hfindA : get_data_from_city A e.city_ibge_code = some a := by
        apply find?_eq_of_unique haA
        · simpa using hacode
        · intro b hb hpb
          have hbcode : b.city_ibge_code = a.city_ibge_code := by
            have : b.city_ibge_code = e.city_ibge_code := by simpa using hpb
            rw [this, ← hacode]
          exact codes_unique hwA hb haA hbcode
      rw [hfindA]
      rw [hb'e] at hrowa
      exact rowMatch_comm hrowa
  · rw [htype, if_pos (by decide)]
    have hcount := state_count_eq hwA hwB hexA hexB hlen
    have heB : e ∈ B.table_data.filter (fun r => r.place_type == "state") :=
      List.mem_filter.mpr ⟨he, by simpa using htype⟩
    have hBpos : 0 < (B.table_data.filter (fun r => r.place_type == "state")).length :=
      List.length_pos_of_mem heB
    have hApos : 0 < (A.table_data.filter (fun r => r.place_type == "state")).length := by
      omega
    obtain ⟨sA, hsA⟩ := List.exists_mem_of_length_pos hApos
    have hsAA : sA ∈ A.table_data := (List.mem_filter.mp hsA).1
    have hsAtype : sA.place_type = "state" := by simpa using (List.mem_filter.mp hsA).2
    have hrowa := hrows sA hsAA
    rw [hsAtype, if_pos (by decide)] at hrowa
    cases hfindB : get_total_data B with
    | none =>
      rw [hfindB] at hrowa
      exact absurd hrowa (by simp [rowMatch])
    | some tB =>
      rw [hfindB] at hrowa
      have hfindB' : B.table_data.find? (fun r => r.place_type == "state") = some tB := hfindB
      have htBB : tB ∈ B.table_data := List.mem_of_find?_eq_some hfindB'
      have htBtype : (tB.place_type == "state") = true := by
        simpa using List.find?_some hfindB'
      have htBe : e = tB :=
        eq_of_mem_of_length_le_one hwB.2.1 heB (List.mem_filter.mpr ⟨htBB, htBtype⟩)
      have hfindA : get_total_data A = some sA := by
        apply find?_eq_of_unique hsAA
        · simpa using hsAtype
        · intro b hb hpb
          exact eq_of_mem_of_length_le_one hwA.2.1 (List.mem_filter.mpr ⟨hb, hpb⟩) hsA
      rw [hfindA, htBe]
      exact rowMatch_comm hrowa

instance (s : StateSpreadsheet) : Decidable (wellFormedTable s) := by
  unfold wellFormedTable
  infer_instance

instance (A B : StateSpreadsheet) : Decidable (codesAgree A B) := by
  unfold codesAgree
  infer_instance

/-- C9 (amended): for submissions with well-formed tables drawing place
identifiers from a shared registry, the comparison's outcome classification
is symmetric: comparing A against B yields an empty discrepancy list exactly
when comparing B against A does. Without well-formedness the equivalence
fails (see the counterexample with duplicated identifiers). -/
theorem compare_empty_symm_wellformed (A B : StateSpreadsheet)
    (hwA : wellFormedTable A) (hwB : wellFormedTable B) (hagree : codesAgree A B) :
    (compare_to_spreadsheet A B = [] ↔ compare_to_spreadsheet B A = []) :=
  ⟨compare_nil_symm hwA hwB hagree, compare_nil_symm hwB hwA (codesAgree_symm hagree)⟩

/-- Well-formed submission of owner "u" for the C9 witness. -/
def c9WA : StateSpreadsheet :=
  ⟨1, 10, "u", 100, "SP", none, UPLOADED,
    [⟨none, "state", some 35, 10, 3⟩, ⟨some "x", "city", some 100, 4, 1⟩,
     ⟨some "y", "city", some 200, 6, 2⟩], [], [], false⟩

/-- Well-formed submission of owner "v" with the same places in a different
row order and one disagreeing count. -/
def c9WB : StateSpreadsheet :=
  ⟨2, 9, "v", 100, "SP", none, UPLOADED,
    [⟨some "y", "city", some 200, 7, 2⟩, ⟨none, "state", some 35, 10, 3⟩,
     ⟨some "x", "city", some 100, 4, 1⟩], [], [], false⟩

/-- Witness for the amended C9 at concrete well-formed sheets. -/
theorem compare_empty_symm_wellformed_witness :
    (compare_to_spreadsheet c9WA c9WB = [] ↔ compare_to_spreadsheet c9WB c9WA = []) :=
  compare_empty_symm_wellformed c9WA c9WB (by decide) (by decide) (by decide)
